import Mathlib

/-!
Verification of the NeuroLinker persistence layer (`src/database.py`), the
language detector (`src/main.py`) and the backend selector, as a shallow
embedding in Lean.

Modelling conventions:
* `datetime.utcnow().isoformat()` produces ISO-8601 UTC strings whose
  lexicographic order coincides with chronological order; an instant is
  modelled as a `Nat` and is passed explicitly to every operation that
  reads the clock.
* `_hash_password` (SHA-256 hexdigest) is a deterministic function of the
  password; the operations that use it take the hash function as an
  explicit argument, since the claims only depend on hash (in)equality.
* `_gen_id` (uuid4) and Firestore server-generated document ids are
  modelled as an explicit `fresh` argument.
* A Python dict payload with optional keys is modelled as a structure of
  `Option` fields, `none` meaning the key is absent.
* A Firestore collection is an association list from document id to
  document, every key occurring at most once in states reachable through
  the API; `setDoc` is `DocumentReference.set`.
-/

namespace NeuroLinker

/-- Instants of the shared clock (see the module docstring). -/
abbrev Timestamp := Nat

/-- Python truthiness of an optional string: `None` and `""` are falsy. -/
def truthyStr : Option String → Bool
  | none => false
  | some s => !(s = "")

/-- Python `a or b` on two optional strings (`os.getenv(..) or os.getenv(..)`). -/
def pyOrStr (a b : Option String) : Option String :=
  if truthyStr a then a else b

/-- Python `l[:k]` for an integer `k`: a nonnegative bound takes a prefix,
a negative bound drops `-k` elements from the end. -/
def pySliceTo (l : List α) (k : Int) : List α :=
  if 0 ≤ k then l.take k.toNat else l.take (l.length - (-k).toNat)

/-- Mutating the first element satisfying `p`, as a Python `for` loop that
updates the found element and breaks. -/
def modifyFirst (p : α → Bool) (f : α → α) : List α → List α
  | [] => []
  | a :: l => if p a then f a :: l else a :: modifyFirst p f l

/-- Replacing the first element satisfying `p` (the found dict is updated
with a payload carrying every key, i.e. fully replaced, keeping its list
position). -/
def replaceFirst (p : α → Bool) (r : α) (l : List α) : List α :=
  modifyFirst p (fun _ => r) l

/-- `collection.document(k).get()` on an association-list collection. -/
def getDoc (k : String) (l : List (String × α)) : Option α :=
  (l.find? fun kv => decide (kv.1 = k)).map (·.2)

/-- `collection.document(k).set(v)`: overwrite the document named `k`,
creating it when absent. -/
def setDoc (k : String) (v : α) : List (String × α) → List (String × α)
  | [] => [(k, v)]
  | kv :: l => if kv.1 = k then (k, v) :: l else kv :: setDoc k v l

/-! ## Records of the four JSON collections (`data/*.json`) -/

structure UserRec where
  id : Nat
  email : String
  password_hash : String
  full_name : String
  created_at : Timestamp
deriving Repr, DecidableEq

structure DecisionRec where
  id : String
  user_id : Nat
  title : Option String
  description : Option String
  goal : Option String
  constraints : List String
  alternatives : List String
  final_choice : Option String
  reasoning : Option String
  expected_outcome : Option String
  memory_layer : String
  tags : List String
  reflection : Option String
  outcome_status : Option String
  created_at : Timestamp
deriving Repr, DecidableEq

structure ChatRec where
  id : Nat
  user_id : Nat
  decision_id : Option String
  chat_type : String
  user_message : String
  ai_response : String
  timestamp : Timestamp
  is_visible_to_user : Bool
deriving Repr, DecidableEq

structure PrefRec where
  user_id : Nat
  share_data_with_ai : Bool
  view_chat_history : Bool
deriving Repr, DecidableEq

/-- The whole state of the JSON backend: the four array files. -/
structure JsonDB where
  users : List UserRec
  decisions : List DecisionRec
  chat : List ChatRec
  prefs : List PrefRec
deriving Repr, DecidableEq

/-- The `decision_data` dict passed to `save_decision`; `none` = key absent. -/
structure DecisionData where
  id : Option String := none
  title : Option String := none
  description : Option String := none
  goal : Option String := none
  constraints : Option (List String) := none
  alternatives : Option (List String) := none
  final_choice : Option String := none
  reasoning : Option String := none
  expected_outcome : Option String := none
  memory_layer : Option String := none
  tags : Option (List String) := none
  reflection : Option String := none
  outcome_status : Option String := none
deriving Repr, DecidableEq

/-- The partial `preferences` dict passed to `update_user_preferences`. -/
structure PrefData where
  share_data_with_ai : Option Bool := none
  view_chat_history : Option Bool := none
deriving Repr, DecidableEq

/-- What `get_user_preferences` returns. -/
structure PrefOut where
  share_data_with_ai : Bool
  view_chat_history : Bool
deriving Repr, DecidableEq

/-! ## JSONDatabaseManager -/

/-- `JSONDatabaseManager.create_user`. -/
def jsonCreateUser (hash : String → String) (st : JsonDB) (now : Timestamp)
    (email password full_name : String) : JsonDB × Bool :=
  if st.users.any fun u => decide (u.email = email) then (st, false)
  else
    let uid := st.users.length + 1
    let newUser : UserRec :=
      { id := uid, email := email, password_hash := hash password,
        full_name := full_name, created_at := now }
    let newPref : PrefRec :=
      { user_id := uid, share_data_with_ai := false, view_chat_history := true }
    ({ st with users := st.users ++ [newUser], prefs := st.prefs ++ [newPref] },
     true)

/-- `JSONDatabaseManager.authenticate_user`. -/
def jsonAuthenticateUser (hash : String → String) (st : JsonDB)
    (email password : String) : Option Nat :=
  (st.users.find? fun u =>
    decide (u.email = email) && decide (u.password_hash = hash password)).map (·.id)

/-- The `payload` dict built by `save_decision`: every field of the record,
with the documented defaults for absent keys and `created_at` stamped with
the call time. -/
def mkPayload (decision_id : String) (user_id : Nat) (dd : DecisionData)
    (now : Timestamp) : DecisionRec :=
  { id := decision_id
    user_id := user_id
    title := dd.title
    description := dd.description
    goal := dd.goal
    constraints := dd.constraints.getD []
    alternatives := dd.alternatives.getD []
    final_choice := dd.final_choice
    reasoning := dd.reasoning
    expected_outcome := dd.expected_outcome
    memory_layer := dd.memory_layer.getD "private"
    tags := dd.tags.getD []
    reflection := dd.reflection
    outcome_status := dd.outcome_status
    created_at := now }

/-- `decision_data.get("id") or _gen_id()`: a missing or empty id is
replaced by a generated one. -/
def chosenId (dd : DecisionData) (fresh : String) : String :=
  match dd.id with
  | some s => if s = "" then fresh else s
  | none => fresh

/-- The upsert key of `save_decision`: same id and same owner. -/
def decKey (did : String) (uid : Nat) (d : DecisionRec) : Bool :=
  decide (d.id = did) && decide (d.user_id = uid)

/-- `JSONDatabaseManager.save_decision`: the first record matching id and
owner is updated in place with the full payload; otherwise the payload is
inserted at position 0. -/
def jsonSaveDecision (st : JsonDB) (uid : Nat) (dd : DecisionData)
    (now : Timestamp) (fresh : String) : JsonDB × String :=
  let did := chosenId dd fresh
  let payload := mkPayload did uid dd now
  if st.decisions.any (decKey did uid) then
    ({ st with decisions := replaceFirst (decKey did uid) payload st.decisions }, did)
  else
    ({ st with decisions := payload :: st.decisions }, did)

/-- `JSONDatabaseManager.get_decision`. -/
def jsonGetDecision (st : JsonDB) (uid : Nat) (did : String) : Option DecisionRec :=
  st.decisions.find? (decKey did uid)

/-- Descending comparison on creation time (`sort(key=..., reverse=True)`,
stable). -/
def byCreatedDesc (a b : DecisionRec) : Bool := b.created_at ≤ a.created_at

/-- `JSONDatabaseManager.get_user_decisions`: filter by owner, sort by
creation time descending, then `decisions[:limit] if limit else decisions`
(so a `None` or `0` limit returns everything). -/
def jsonGetUserDecisions (st : JsonDB) (uid : Nat) (limit : Option Int) :
    List DecisionRec :=
  let ds := (st.decisions.filter fun d => decide (d.user_id = uid)).mergeSort
    byCreatedDesc
  match limit with
  | some k => if k ≠ 0 then pySliceTo ds k else ds
  | none => ds

/-- `JSONDatabaseManager.save_chat_message`. -/
def jsonSaveChatMessage (st : JsonDB) (uid : Nat)
    (user_message ai_response chat_type : String) (decision_id : Option String)
    (is_visible : Bool) (now : Timestamp) : JsonDB × Nat :=
  let cid := st.chat.length + 1
  ({ st with chat := st.chat ++
    [{ id := cid, user_id := uid, decision_id := decision_id,
       chat_type := chat_type, user_message := user_message,
       ai_response := ai_response, timestamp := now,
       is_visible_to_user := is_visible }] }, cid)

/-- Ascending comparison on chat timestamps (`sort(key=...)`, stable). -/
def byTimestampAsc (a b : ChatRec) : Bool := a.timestamp ≤ b.timestamp

/-- `JSONDatabaseManager.get_chat_history`: filter by owner, then by
decision id and chat type only when those arguments are truthy
(`if decision_id:` / `if chat_type:`), drop hidden messages unless
requested, and sort ascending by timestamp. -/
def jsonGetChatHistory (st : JsonDB) (uid : Nat) (decision_id : Option String)
    (chat_type : Option String) (include_hidden : Bool) : List ChatRec :=
  let c1 := st.chat.filter fun c => decide (c.user_id = uid)
  let c2 := if truthyStr decision_id then
      c1.filter fun c => decide (c.decision_id = decision_id) else c1
  let c3 := match chat_type with
    | some s => if s = "" then c2 else c2.filter fun c => decide (c.chat_type = s)
    | none => c2
  let c4 := if include_hidden then c3 else c3.filter (·.is_visible_to_user)
  c4.mergeSort byTimestampAsc

/-- `JSONDatabaseManager.get_user_preferences`. -/
def jsonGetUserPreferences (st : JsonDB) (uid : Nat) : PrefOut :=
  match st.prefs.find? fun p => decide (p.user_id = uid) with
  | some p => { share_data_with_ai := p.share_data_with_ai,
                view_chat_history := p.view_chat_history }
  | none => { share_data_with_ai := false, view_chat_history := true }

/-- `JSONDatabaseManager.update_user_preferences`: the first record of the
user is updated, each field falling back to its currently stored value
when the payload omits it; a missing record is created with the payload
over the documented defaults. -/
def jsonUpdateUserPreferences (st : JsonDB) (uid : Nat) (pd : PrefData) :
    JsonDB × Bool :=
  if st.prefs.any fun p => decide (p.user_id = uid) then
    let upd : PrefRec → PrefRec := fun p =>
      { p with
        share_data_with_ai := pd.share_data_with_ai.getD p.share_data_with_ai,
        view_chat_history := pd.view_chat_history.getD p.view_chat_history }
    let newPrefs := modifyFirst (fun p => decide (p.user_id = uid)) upd st.prefs
    ({ st with prefs := newPrefs }, true)
  else
    let newPref : PrefRec :=
      { user_id := uid,
        share_data_with_ai := pd.share_data_with_ai.getD false,
        view_chat_history := pd.view_chat_history.getD true }
    ({ st with prefs := st.prefs ++ [newPref] }, true)

/-! ## FirestoreDatabaseManager

Collections are association lists from a document id to the document;
server timestamps (`firestore.SERVER_TIMESTAMP`) are the explicit `now`
argument; server-generated document ids are the explicit `fresh` argument. -/

structure FireUser where
  email : String
  password_hash : String
  full_name : String
  created_at : Timestamp
deriving Repr, DecidableEq

structure FireDecision where
  user_id : String
  title : Option String
  description : Option String
  goal : Option String
  constraints : List String
  alternatives : List String
  final_choice : Option String
  reasoning : Option String
  expected_outcome : Option String
  memory_layer : String
  tags : List String
  reflection : Option String
  outcome_status : Option String
  created_at : Timestamp
deriving Repr, DecidableEq

structure FireChat where
  user_id : String
  decision_id : Option String
  chat_type : String
  user_message : String
  ai_response : String
  timestamp : Timestamp
  is_visible_to_user : Bool
deriving Repr, DecidableEq

/-- A `user_preferences` document. `create_user` writes a `user_id` field;
`update_user_preferences` does not mention it (merge keeps it when present,
a lazily created document lacks it), hence the `Option`. -/
structure FirePref where
  user_id : Option String
  share_data_with_ai : Bool
  view_chat_history : Bool
deriving Repr, DecidableEq

/-- The whole state of the Firestore backend: the four collections. -/
structure FireDB where
  users : List (String × FireUser)
  decisions : List (String × FireDecision)
  chat : List (String × FireChat)
  prefs : List (String × FirePref)
deriving Repr, DecidableEq

/-- `FirestoreDatabaseManager.create_user`: the `where("email","==",email)`
query is an equality scan over the collection. -/
def fireCreateUser (hash : String → String) (st : FireDB) (now : Timestamp)
    (email password full_name : String) (fresh : String) : FireDB × Bool :=
  if st.users.any fun kv => decide (kv.2.email = email) then (st, false)
  else
    let udoc : FireUser :=
      { email := email, password_hash := hash password,
        full_name := full_name, created_at := now }
    let pdoc : FirePref :=
      { user_id := some fresh, share_data_with_ai := false, view_chat_history := true }
    ({ st with users := setDoc fresh udoc st.users,
               prefs := setDoc fresh pdoc st.prefs }, true)

/-- `FirestoreDatabaseManager.authenticate_user`: the first document whose
email matches, accepted only when its stored hash equals the hash of the
supplied password. -/
def fireAuthenticateUser (hash : String → String) (st : FireDB)
    (email password : String) : Option String :=
  match st.users.find? fun kv => decide (kv.2.email = email) with
  | some kv => if kv.2.password_hash = hash password then some kv.1 else none
  | none => none

/-- The `payload` dict built by `FirestoreDatabaseManager.save_decision`.
Every field of the document is present in the payload (absent payload keys
become the documented defaults, `created_at` becomes the server timestamp),
so `set(payload, merge=True)` fully overwrites the document. -/
def fireMkPayload (user_id : String) (dd : DecisionData) (now : Timestamp) :
    FireDecision :=
  { user_id := user_id
    title := dd.title
    description := dd.description
    goal := dd.goal
    constraints := dd.constraints.getD []
    alternatives := dd.alternatives.getD []
    final_choice := dd.final_choice
    reasoning := dd.reasoning
    expected_outcome := dd.expected_outcome
    memory_layer := dd.memory_layer.getD "private"
    tags := dd.tags.getD []
    reflection := dd.reflection
    outcome_status := dd.outcome_status
    created_at := now }

/-- `FirestoreDatabaseManager.save_decision`. -/
def fireSaveDecision (st : FireDB) (uid : String) (dd : DecisionData)
    (now : Timestamp) (fresh : String) : FireDB × String :=
  let did := chosenId dd fresh
  ({ st with decisions := setDoc did (fireMkPayload uid dd now) st.decisions }, did)

/-- `FirestoreDatabaseManager.get_decision`: fetch by document id, then
check the owner. -/
def fireGetDecision (st : FireDB) (uid : String) (did : String) :
    Option FireDecision :=
  match getDoc did st.decisions with
  | some d => if d.user_id = uid then some d else none
  | none => none

/-- Descending comparison on a decision document's creation time
(`order_by("created_at", direction=DESCENDING)`). -/
def fireByCreatedDesc (a b : String × FireDecision) : Bool :=
  b.2.created_at ≤ a.2.created_at

/-- `FirestoreDatabaseManager.get_user_decisions`: equality query on the
owner, server-side descending sort on `created_at`, and `q.limit(limit)`
applied only when the limit is truthy (`if limit:`). -/
def fireGetUserDecisions (st : FireDB) (uid : String) (limit : Option Nat) :
    List (String × FireDecision) :=
  let ds := (st.decisions.filter fun kv => decide (kv.2.user_id = uid)).mergeSort
    fireByCreatedDesc
  match limit with
  | some k => if k ≠ 0 then ds.take k else ds
  | none => ds

/-- `FirestoreDatabaseManager.save_chat_message`. -/
def fireSaveChatMessage (st : FireDB) (uid : String)
    (user_message ai_response chat_type : String) (decision_id : Option String)
    (is_visible : Bool) (now : Timestamp) (fresh : String) : FireDB × String :=
  let doc : FireChat :=
    { user_id := uid, decision_id := decision_id, chat_type := chat_type,
      user_message := user_message, ai_response := ai_response,
      timestamp := now, is_visible_to_user := is_visible }
  ({ st with chat := setDoc fresh doc st.chat }, fresh)

/-- Ascending comparison on a chat document's timestamp (`order_by("timestamp")`). -/
def fireByTimestampAsc (a b : String × FireChat) : Bool :=
  a.2.timestamp ≤ b.2.timestamp

/-- `FirestoreDatabaseManager.get_chat_history`: equality filters added only
for truthy arguments, the visibility filter added unless `include_hidden`,
then a server-side ascending sort on `timestamp`. -/
def fireGetChatHistory (st : FireDB) (uid : String) (decision_id : Option String)
    (chat_type : Option String) (include_hidden : Bool) :
    List (String × FireChat) :=
  let c1 := st.chat.filter fun kv => decide (kv.2.user_id = uid)
  let c2 := if truthyStr decision_id then
      c1.filter fun kv => decide (kv.2.decision_id = decision_id) else c1
  let c3 := match chat_type with
    | some s => if s = "" then c2 else c2.filter fun kv => decide (kv.2.chat_type = s)
    | none => c2
  let c4 := if include_hidden then c3 else c3.filter (·.2.is_visible_to_user)
  c4.mergeSort fireByTimestampAsc

/-- `FirestoreDatabaseManager.get_user_preferences`. -/
def fireGetUserPreferences (st : FireDB) (uid : String) : PrefOut :=
  match getDoc uid st.prefs with
  | some p => { share_data_with_ai := p.share_data_with_ai,
                view_chat_history := p.view_chat_history }
  | none => { share_data_with_ai := false, view_chat_history := true }

/-- `FirestoreDatabaseManager.update_user_preferences`: writes
`{share_data_with_ai: bool(partial.get(.., False)),
view_chat_history: bool(partial.get(.., True))}` with `merge=True` — both
flags are always present in the written dict, each payload-absent flag
materialised as its global default (not the stored value); the merge only
preserves the unmentioned `user_id` field. -/
def fireUpdateUserPreferences (st : FireDB) (uid : String) (pd : PrefData) :
    FireDB × Bool :=
  let newShare := pd.share_data_with_ai.getD false
  let newView := pd.view_chat_history.getD true
  let doc : FirePref :=
    match getDoc uid st.prefs with
    | some p => { user_id := p.user_id, share_data_with_ai := newShare,
                  view_chat_history := newView }
    | none => { user_id := none, share_data_with_ai := newShare,
                view_chat_history := newView }
  ({ st with prefs := setDoc uid doc st.prefs }, true)

/-! ## Language detector (`src/main.py`, `detect_language`) -/

/-- The number of characters of `text` in the Devanagari code-point range
`[ऀ-ॿ]` (what `re.findall` counts). -/
def devanagariCount (text : String) : Nat :=
  (text.data.filter fun c => 0x0900 ≤ c.toNat && c.toNat ≤ 0x097F).length

/-- `detect_language`: empty input is English; otherwise Hindi exactly when
the Devanagari character count exceeds 20% of the character count.
The Python comparison `devanagari_count > len(text) * 0.2` with IEEE-754
`0.2` never rounds across an integer for any representable length, so it is
the exact-arithmetic comparison `5 * count > len`. -/
def detect_language (text : String) : String :=
  if text = "" then "en"
  else if 5 * devanagariCount text > text.length then "hi"
  else "en"

/-! ## Backend selector (`_select_backend`, evaluated once at import) -/

inductive Backend
  | jsonBackend
  | fireBackend
deriving Repr, DecidableEq

/-- Everything `_select_backend` reads from the process environment, plus
the effect of attempting `FirestoreDatabaseManager(cred_path)` (which may
raise; the exception message is the `Except.error` payload). -/
structure SelectorEnv where
  force_json_db : String
  firebase_key_path : Option String
  google_application_credentials : Option String
  fire_imported : Bool
  path_exists : String → Bool
  fire_init : String → Except String Unit

/-- `_select_backend`: unconditional JSON when `FORCE_JSON_DB == "1"`;
otherwise try Firestore only when the credential path is truthy, the
client library imported and the path exists, with any constructor failure
silently falling back to JSON. -/
def select_backend (env : SelectorEnv) : Backend :=
  if env.force_json_db = "1" then Backend.jsonBackend
  else
    match pyOrStr env.firebase_key_path env.google_application_credentials with
    | some p =>
      if !(p = "") && env.fire_imported && env.path_exists p then
        match env.fire_init p with
        | Except.ok _ => Backend.fireBackend
        | Except.error _ => Backend.jsonBackend
      else Backend.jsonBackend
    | none => Backend.jsonBackend

/-! ## Concrete stores and inputs used to instantiate the theorems -/

/-- A deterministic stand-in for the hash function in concrete scenarios. -/
def idHash : String → String := fun s => s

def emptyJson : JsonDB := { users := [], decisions := [], chat := [], prefs := [] }

def emptyFire : FireDB := { users := [], decisions := [], chat := [], prefs := [] }

/-- A JSON store whose single preferences record has `share_data_with_ai = true`. -/
def prefsJsonSt : JsonDB :=
  { emptyJson with
    prefs := [{ user_id := 1, share_data_with_ai := true, view_chat_history := true }] }

/-- A Firestore store whose single preferences document has
`share_data_with_ai = true`. -/
def prefsFireSt : FireDB :=
  { emptyFire with
    prefs := [("u1", { user_id := some "u1", share_data_with_ai := true,
                       view_chat_history := true })] }

/-- A decision payload carrying an explicit id. -/
def ddSample : DecisionData := { id := some "d1", title := some "move cities" }

/-- The same id with a changed field value. -/
def ddSample' : DecisionData := { id := some "d1", title := some "stay" }

/-- A store holding one decision owned by user 2 / `"u2"`. -/
def otherOwnerJson : JsonDB :=
  { emptyJson with decisions := [mkPayload "d9" 2 {} 0] }

def otherOwnerFire : FireDB :=
  { emptyFire with decisions := [("d9", fireMkPayload "u2" {} 0)] }

/-- A store holding exactly one decision of user 1 / `"u1"`. -/
def oneDecisionJson : JsonDB :=
  { emptyJson with decisions := [mkPayload "d1" 1 ddSample 5] }

def oneDecisionFire : FireDB :=
  { emptyFire with decisions := [("d1", fireMkPayload "u1" ddSample 5)] }

/-- A store holding one chat message of user 1 linked to decision `"d1"`. -/
def oneChatJson : JsonDB :=
  { emptyJson with
    chat := [{ id := 1, user_id := 1, decision_id := some "d1",
               chat_type := "decision_recording", user_message := "m",
               ai_response := "r", timestamp := 3, is_visible_to_user := true }] }

/-- A chat message saved with `visible = false`. -/
def hiddenMsg : ChatRec :=
  { id := 1, user_id := 1, decision_id := none,
    chat_type := "decision_recording", user_message := "m",
    ai_response := "r", timestamp := 3, is_visible_to_user := false }

/-- A store holding one hidden chat message of user 1. -/
def hiddenChatJson : JsonDB := { emptyJson with chat := [hiddenMsg] }

/-- An environment with the force-local flag set and a failing constructor. -/
def envForceLocal : SelectorEnv :=
  { force_json_db := "1", firebase_key_path := some "/tmp/k.json",
    google_application_credentials := none, fire_imported := true,
    path_exists := fun _ => true, fire_init := fun _ => Except.error "boom" }

/-! ## Helper lemmas -/

theorem byCreatedDesc_iff (a b : DecisionRec) :
    byCreatedDesc a b = true ↔ b.created_at ≤ a.created_at := by
  simp [byCreatedDesc]

theorem byTimestampAsc_iff (a b : ChatRec) :
    byTimestampAsc a b = true ↔ a.timestamp ≤ b.timestamp := by
  simp [byTimestampAsc]

theorem fireByCreatedDesc_iff (a b : String × FireDecision) :
    fireByCreatedDesc a b = true ↔ b.2.created_at ≤ a.2.created_at := by
  simp [fireByCreatedDesc]

theorem fireByTimestampAsc_iff (a b : String × FireChat) :
    fireByTimestampAsc a b = true ↔ a.2.timestamp ≤ b.2.timestamp := by
  simp [fireByTimestampAsc]

/-- Sortedness and permutation facts for a `mergeSort` whose comparison is
`key b ≤ key a` for a numeric key; the head of the result is any element
whose key strictly dominates every other element's key. -/
theorem head?_mergeSort_max {α : Type} {le : α → α → Bool} (key : α → Nat)
    (hle : ∀ a b, le a b = true ↔ key b ≤ key a)
    (l : List α) (x : α) (hx : x ∈ l)
    (hmax : ∀ y ∈ l, y ≠ x → key y < key x) :
    (l.mergeSort le).head? = some x := by
  have htrans : ∀ a b c, le a b = true → le b c = true → le a c = true := by
    intro a b c hab hbc
    rw [hle] at hab hbc ⊢
    omega
  have htotal : ∀ a b, (le a b || le b a) = true := by
    intro a b
    rcases Nat.le_total (key b) (key a) with h | h
    · simp [(hle a b).mpr h]
    · simp [(hle b a).mpr h]
  have hsorted := List.sorted_mergeSort htrans htotal l
  cases hms : l.mergeSort le with
  | nil =>
    have hmem : x ∈ l.mergeSort le := List.mem_mergeSort.mpr hx
    rw [hms] at hmem
    simp at hmem
  | cons h t =>
    have hhl : h ∈ l := List.mem_mergeSort.mp (hms ▸ List.mem_cons_self h t)
    by_cases he : h = x
    · simp [he]
    · have hmem : x ∈ h :: t := hms ▸ List.mem_mergeSort.mpr hx
      rcases List.mem_cons.mp hmem with rfl | hxt
      · exact absurd rfl he
      · rw [hms] at hsorted
        have hba := List.rel_of_pairwise_cons hsorted hxt
        rw [hle] at hba
        have hlt := hmax h hhl he
        omega

theorem modifyFirst_cons_pos {p : α → Bool} {f : α → α} {a : α} {l : List α}
    (h : p a = true) : modifyFirst p f (a :: l) = f a :: l := by
  simp [modifyFirst, h]

theorem modifyFirst_cons_neg {p : α → Bool} {f : α → α} {a : α} {l : List α}
    (h : p a = false) : modifyFirst p f (a :: l) = a :: modifyFirst p f l := by
  simp [modifyFirst, h]

theorem replaceFirst_cons_pos {p : α → Bool} {r a : α} {l : List α}
    (h : p a = true) : replaceFirst p r (a :: l) = r :: l := by
  simp [replaceFirst, modifyFirst, h]

/-- Where the first match sits: a list with a match splits into an
unmatched part, the first match, and a tail, and `replaceFirst` rewrites
exactly the middle element. -/
theorem replaceFirst_decomp {p : α → Bool} (r : α) :
    ∀ l : List α, l.any p = true →
      ∃ l₁ a l₂, l = l₁ ++ a :: l₂ ∧ p a = true ∧ (∀ x ∈ l₁, p x = false) ∧
        replaceFirst p r l = l₁ ++ r :: l₂ := by
  intro l
  induction l with
  | nil => simp
  | cons a l ih =>
    intro _h
    by_cases hpa : p a = true
    · exact ⟨[], a, l, rfl, hpa, by simp, by simp [replaceFirst_cons_pos hpa]⟩
    · have hpa' : p a = false := by simpa using hpa
      have hl : l.any p = true := by
        rcases List.any_eq_true.mp _h with ⟨x, hx, hpx⟩
        rcases List.mem_cons.mp hx with rfl | hx
        · exact absurd hpx (by simp [hpa'])
        · exact List.any_eq_true.mpr ⟨x, hx, hpx⟩
      obtain ⟨l₁, b, l₂, he, hb, hl₁, hrf⟩ := ih hl
      refine ⟨a :: l₁, b, l₂, by simp [he], hb, ?_, ?_⟩
      · intro x hx
        rcases List.mem_cons.mp hx with rfl | hx
        · exact hpa'
        · exact hl₁ x hx
      · simpa [replaceFirst, modifyFirst, hpa'] using hrf

/-- `find?` after `replaceFirst` returns the replacement, provided it
itself matches. -/
theorem find?_replaceFirst {p : α → Bool} {r : α} (hr : p r = true) :
    ∀ l : List α, l.any p = true → (replaceFirst p r l).find? p = some r := by
  intro l hl
  obtain ⟨l₁, a, l₂, _he, _ha, hl₁, hrf⟩ := replaceFirst_decomp r l hl
  rw [hrf, List.find?_append]
  have h1 : l₁.find? p = none := List.find?_eq_none.mpr (by
    intro x hx
    simp [hl₁ x hx])
  rw [h1, List.find?_cons_of_pos _ hr]
  rfl

theorem getDoc_setDoc_self (k : String) (v : α) :
    ∀ l : List (String × α), getDoc k (setDoc k v l) = some v := by
  intro l
  induction l with
  | nil => simp [getDoc, setDoc]
  | cons kv l ih =>
    by_cases h : kv.1 = k
    · simp [setDoc, h, getDoc]
    · simpa [setDoc, h, getDoc, List.find?_cons_of_neg] using ih

/-- Setting a document whose id is absent appends it. -/
theorem setDoc_of_forall_ne (k : String) (v : α) :
    ∀ l : List (String × α), (∀ kv ∈ l, kv.1 ≠ k) → setDoc k v l = l ++ [(k, v)] := by
  intro l
  induction l with
  | nil => simp [setDoc]
  | cons kv l ih =>
    intro h
    have hk : ¬kv.1 = k := h kv (List.mem_cons_self kv l)
    simp [setDoc, hk]
    exact ih fun x hx => h x (List.mem_cons_of_mem kv hx)

/-- Setting a document whose id is present overwrites its first (in
well-formed states: only) occurrence in place. -/
theorem setDoc_decomp {α : Type} (k : String) (v : α) :
    ∀ l : List (String × α), l.any (fun kv => decide (kv.1 = k)) = true →
      ∃ l₁ w l₂, l = l₁ ++ (k, w) :: l₂ ∧ (∀ kv ∈ l₁, kv.1 ≠ k) ∧
        setDoc k v l = l₁ ++ (k, v) :: l₂ := by
  intro l
  induction l with
  | nil => simp
  | cons kv l ih =>
    intro _h
    by_cases hk : kv.1 = k
    · refine ⟨[], kv.2, l, ?_, by simp, by simp [setDoc, hk]⟩
      simp [← hk]
    · have hl : l.any (fun kv => decide (kv.1 = k)) = true := by
        rcases List.any_eq_true.mp _h with ⟨x, hx, hpx⟩
        rcases List.mem_cons.mp hx with rfl | hx
        · exact absurd (by simpa using hpx) hk
        · exact List.any_eq_true.mpr ⟨x, hx, hpx⟩
      obtain ⟨l₁, w, l₂, he, hl₁, hsd⟩ := ih hl
      refine ⟨kv :: l₁, w, l₂, by simp [he], ?_, by simp [setDoc, hk, hsd]⟩
      intro x hx
      rcases List.mem_cons.mp hx with rfl | hx
      · exact hk
      · exact hl₁ x hx

/-- Membership in a JSON chat-history result: the owner always filters;
the decision-id and chat-type filters apply only to truthy arguments; the
visibility filter applies unless hidden messages were requested. -/
theorem mem_jsonGetChatHistory {st : JsonDB} {uid : Nat}
    {did ct : Option String} {ih : Bool} {c : ChatRec} :
    c ∈ jsonGetChatHistory st uid did ct ih ↔
      (c ∈ st.chat ∧ c.user_id = uid
        ∧ (truthyStr did = true → c.decision_id = did)
        ∧ (∀ s, ct = some s → s ≠ "" → c.chat_type = s)
        ∧ (ih = true ∨ c.is_visible_to_user = true)) := by
  unfold jsonGetChatHistory
  simp only [List.mem_mergeSort]
  rcases hct : ct with _ | s
  · cases hd : truthyStr did <;> cases ih <;>
      simp [List.mem_filter, hd] <;> tauto
  · by_cases hs : s = ""
    · subst hs
      cases hd : truthyStr did <;> cases ih <;>
        simp [List.mem_filter, hd] <;> tauto
    · cases hd : truthyStr did <;> cases ih <;>
        simp [List.mem_filter, hd, hs] <;> tauto

/-- Membership in a Firestore chat-history result, mirroring
`mem_jsonGetChatHistory`. -/
theorem mem_fireGetChatHistory {fst : FireDB} {fuid : String}
    {did ct : Option String} {ih : Bool} {kv : String × FireChat} :
    kv ∈ fireGetChatHistory fst fuid did ct ih ↔
      (kv ∈ fst.chat ∧ kv.2.user_id = fuid
        ∧ (truthyStr did = true → kv.2.decision_id = did)
        ∧ (∀ s, ct = some s → s ≠ "" → kv.2.chat_type = s)
        ∧ (ih = true ∨ kv.2.is_visible_to_user = true)) := by
  unfold fireGetChatHistory
  simp only [List.mem_mergeSort]
  rcases hct : ct with _ | s
  · cases hd : truthyStr did <;> cases ih <;>
      simp [List.mem_filter, hd] <;> tauto
  · by_cases hs : s = ""
    · subst hs
      cases hd : truthyStr did <;> cases ih <;>
        simp [List.mem_filter, hd] <;> tauto
    · cases hd : truthyStr did <;> cases ih <;>
        simp [List.mem_filter, hd, hs] <;> tauto

/-- Overwriting the single trailing document with a given id replaces it
in place. -/
theorem setDoc_append_singleton (k : String) (v w : α) :
    ∀ l : List (String × α), (∀ kv ∈ l, kv.1 ≠ k) →
      setDoc k v (l ++ [(k, w)]) = l ++ [(k, v)] := by
  intro l
  induction l with
  | nil => simp [setDoc]
  | cons kv l ih =>
    intro h
    have hk : ¬kv.1 = k := h kv (List.mem_cons_self kv l)
    simp [setDoc, hk]
    exact ih fun x hx => h x (List.mem_cons_of_mem kv hx)

/-- Full characterisation of a successful `create_user` on the JSON store:
exactly one user record (sequential id, hashed password) and one default
preferences record are appended. -/
theorem jsonCreateUser_fresh (hash : String → String) (st : JsonDB)
    (t : Timestamp) (e p name : String) (h : ∀ u ∈ st.users, u.email ≠ e) :
    jsonCreateUser hash st t e p name =
      ({ st with
          users := st.users ++
            [{ id := st.users.length + 1, email := e, password_hash := hash p,
               full_name := name, created_at := t }],
          prefs := st.prefs ++
            [{ user_id := st.users.length + 1, share_data_with_ai := false,
               view_chat_history := true }] }, true) := by
  unfold jsonCreateUser
  have hany : (st.users.any fun u => decide (u.email = e)) = false :=
    List.any_eq_false.mpr (by intro u hu; simpa using h u hu)
  simp [hany]

/-- `create_user` on the JSON store fails without touching the state when
the email is taken. -/
theorem jsonCreateUser_dup (hash : String → String) (st : JsonDB)
    (t : Timestamp) (e p name : String) (h : ∃ u ∈ st.users, u.email = e) :
    jsonCreateUser hash st t e p name = (st, false) := by
  unfold jsonCreateUser
  have hany : (st.users.any fun u => decide (u.email = e)) = true :=
    List.any_eq_true.mpr (by
      rcases h with ⟨u, hu, he⟩
      exact ⟨u, hu, by simpa using he⟩)
  simp [hany]

/-- Full characterisation of a successful `create_user` on the Firestore
store (with a server-generated id not colliding with existing documents). -/
theorem fireCreateUser_fresh (hash : String → String) (fst : FireDB)
    (t : Timestamp) (e p name fresh : String)
    (h : ∀ kv ∈ fst.users, kv.2.email ≠ e)
    (hu : ∀ kv ∈ fst.users, kv.1 ≠ fresh)
    (hp : ∀ kv ∈ fst.prefs, kv.1 ≠ fresh) :
    fireCreateUser hash fst t e p name fresh =
      ({ fst with
          users := fst.users ++
            [(fresh, { email := e, password_hash := hash p, full_name := name,
                       created_at := t })],
          prefs := fst.prefs ++
            [(fresh, { user_id := some fresh, share_data_with_ai := false,
                       view_chat_history := true })] }, true) := by
  unfold fireCreateUser
  have hany : (fst.users.any fun kv => decide (kv.2.email = e)) = false :=
    List.any_eq_false.mpr (by intro kv hkv; simpa using h kv hkv)
  simp [hany, setDoc_of_forall_ne _ _ _ hu, setDoc_of_forall_ne _ _ _ hp]

/-- `create_user` on the Firestore store fails without touching the state
when the email is taken. -/
theorem fireCreateUser_dup (hash : String → String) (fst : FireDB)
    (t : Timestamp) (e p name fresh : String)
    (h : ∃ kv ∈ fst.users, kv.2.email = e) :
    fireCreateUser hash fst t e p name fresh = (fst, false) := by
  unfold fireCreateUser
  have hany : (fst.users.any fun kv => decide (kv.2.email = e)) = true :=
    List.any_eq_true.mpr (by
      rcases h with ⟨kv, hkv, he⟩
      exact ⟨kv, hkv, by simpa using he⟩)
  simp [hany]

/-! ## Claim theorems -/

/-- C1 (code bug in the Firestore backend): on the failing input — a stored
preferences record with `share_data_with_ai = true` and an empty partial
payload — the JSON backend retains the stored value as the spec requires,
while the Firestore backend resets the unspecified field to its global
default `false`: `update_user_preferences` materialises
`preferences.get("share_data_with_ai", False)` before the `merge=True`
write, so the merge never sees an absent field. The two backends disagree
and the claimed retention fails on the Firestore side. -/
theorem update_preferences_backend_divergence :
    jsonGetUserPreferences (jsonUpdateUserPreferences prefsJsonSt 1 {}).1 1
      = { share_data_with_ai := true, view_chat_history := true }
    ∧ fireGetUserPreferences (fireUpdateUserPreferences prefsFireSt "u1" {}).1 "u1"
      = { share_data_with_ai := false, view_chat_history := true } := by
  decide

/-- C3: when every stored decision with the requested id belongs to some
other owner — in particular when no decision with that id exists at all —
both backends return `none`, so an ownership mismatch is indistinguishable
from absence. -/
theorem get_decision_ownership_mismatch_none
    (st : JsonDB) (fst : FireDB) (uidA : Nat) (fuidA did : String)
    (h : ∀ d ∈ st.decisions, d.id = did → d.user_id ≠ uidA)
    (hf : ∀ kv ∈ fst.decisions, kv.1 = did → kv.2.user_id ≠ fuidA) :
    jsonGetDecision st uidA did = none ∧ fireGetDecision fst fuidA did = none := by
  constructor
  · unfold jsonGetDecision
    refine List.find?_eq_none.mpr ?_
    intro d hd
    simp only [decKey, Bool.and_eq_true, decide_eq_true_eq, not_and]
    intro hid
    exact h d hd hid
  · unfold fireGetDecision
    cases hg : getDoc did fst.decisions with
    | none => rfl
    | some v =>
      unfold getDoc at hg
      rcases Option.map_eq_some'.mp hg with ⟨kv, hfind, hv⟩
      have hmem := List.mem_of_find?_eq_some hfind
      have hkey : kv.1 = did := by simpa using List.find?_some hfind
      have := hf kv hmem hkey
      rw [hv] at this
      simp [this]

/-- Witness for C3 at a concrete store: the single decision `"d9"` is
owned by user 2 / `"u2"`, and user 1 / `"u1"` gets `none` from both
backends. -/
theorem get_decision_ownership_witness :
    jsonGetDecision otherOwnerJson 1 "d9" = none
    ∧ fireGetDecision otherOwnerFire "u1" "d9" = none :=
  get_decision_ownership_mismatch_none otherOwnerJson otherOwnerFire 1 "u1" "d9"
    (by decide) (by decide)

/-- C8: the selector always yields a backend (construction errors are
consumed, never propagated), picks the local store unconditionally under
the force flag, and falls back to the local store for every
remote-construction failure mode: blank or unset credential path, missing
client library, nonexistent path, or a raising constructor. -/
theorem select_backend_fallback (env : SelectorEnv) :
    (select_backend env = Backend.jsonBackend
      ∨ select_backend env = Backend.fireBackend)
    ∧ (env.force_json_db = "1" → select_backend env = Backend.jsonBackend)
    ∧ (truthyStr (pyOrStr env.firebase_key_path env.google_application_credentials)
          = false →
        select_backend env = Backend.jsonBackend)
    ∧ (env.fire_imported = false → select_backend env = Backend.jsonBackend)
    ∧ (∀ p, pyOrStr env.firebase_key_path env.google_application_credentials
          = some p →
        env.path_exists p = false → select_backend env = Backend.jsonBackend)
    ∧ (∀ p e, pyOrStr env.firebase_key_path env.google_application_credentials
          = some p →
        env.fire_init p = Except.error e →
        select_backend env = Backend.jsonBackend) := by
  refine ⟨?_, ?_, ?_, ?_, ?_, ?_⟩
  · cases h : select_backend env with
    | jsonBackend => exact Or.inl rfl
    | fireBackend => exact Or.inr rfl
  · intro h
    unfold select_backend
    simp [h]
  · intro h
    unfold select_backend
    by_cases hforce : env.force_json_db = "1"
    · simp [hforce]
    · cases hcp : pyOrStr env.firebase_key_path env.google_application_credentials with
      | none => simp [hforce, hcp]
      | some p =>
        rw [hcp] at h
        have hp : p = "" := by simpa [truthyStr] using h
        simp [hforce, hcp, hp]
  · intro h
    unfold select_backend
    by_cases hforce : env.force_json_db = "1"
    · simp [hforce]
    · cases hcp : pyOrStr env.firebase_key_path env.google_application_credentials with
      | none => simp [hforce, hcp]
      | some p => simp [hforce, hcp, h]
  · intro p hcp h
    unfold select_backend
    by_cases hforce : env.force_json_db = "1"
    · simp [hforce]
    · simp [hforce, hcp, h]
  · intro p e hcp h
    unfold select_backend
    by_cases hforce : env.force_json_db = "1"
    · simp [hforce]
    · rw [hcp]
      simp only [hforce, if_false]
      split
      · rw [h]
      · rfl

/-- Witness for C8: with the force-local flag set (and a constructor that
would raise), the selector picks the JSON backend. -/
theorem select_backend_fallback_witness :
    select_backend envForceLocal = Backend.jsonBackend :=
  (select_backend_fallback envForceLocal).2.1 rfl

/-- C9: the detector is a pure function returning only the two tags; it
answers the secondary tag `"hi"` exactly when the Devanagari character
count exceeds 20% of the total character count, and `"en"` otherwise — in
particular on the empty string and on the spec's sample inputs. (The
Python float test `count > len(text) * 0.2` never rounds across an
integer, so it is the exact comparison `5 * count > len`.) -/
theorem detect_language_threshold :
    (∀ s : String, detect_language s = "hi" ∨ detect_language s = "en")
    ∧ (∀ s : String, detect_language s = "hi" ↔ 5 * devanagariCount s > s.length)
    ∧ detect_language "" = "en"
    ∧ detect_language "यह एक परीक्षण है" = "hi"
    ∧ detect_language "this is a test" = "en" := by
  refine ⟨?_, ?_, by decide, by decide, by decide⟩
  · intro s
    unfold detect_language
    by_cases h : s = ""
    · simp [h]
    · by_cases hc : 5 * devanagariCount s > s.length
      · simp [h, hc]
      · simp [h, hc]
  · intro s
    unfold detect_language
    by_cases h : s = ""
    · subst h
      decide
    · by_cases hc : 5 * devanagariCount s > s.length
      · simp [h, hc]
      · simp [h, hc]

/-- C6: on both backends, `create_user` with an already-taken email
(case-sensitive exact match) returns `false` and leaves the store exactly
as it was (the duplicate branch performs no write and no fallible
operation, so nothing is raised); otherwise it returns `true` and creates
exactly two records — the user with the hashed password and a default
preferences record with `share_data_with_ai = false`,
`view_chat_history = true` — touching nothing else. -/
theorem create_user_duplicate_and_fresh
    (hash : String → String) (st : JsonDB) (fst : FireDB) (t : Timestamp)
    (e p name fresh : String) :
    ((∃ u ∈ st.users, u.email = e) →
        jsonCreateUser hash st t e p name = (st, false))
    ∧ ((∀ u ∈ st.users, u.email ≠ e) →
        (jsonCreateUser hash st t e p name).2 = true
        ∧ (jsonCreateUser hash st t e p name).1.users = st.users ++
            [{ id := st.users.length + 1, email := e, password_hash := hash p,
               full_name := name, created_at := t }]
        ∧ (jsonCreateUser hash st t e p name).1.prefs = st.prefs ++
            [{ user_id := st.users.length + 1, share_data_with_ai := false,
               view_chat_history := true }]
        ∧ (jsonCreateUser hash st t e p name).1.decisions = st.decisions
        ∧ (jsonCreateUser hash st t e p name).1.chat = st.chat)
    ∧ ((∃ kv ∈ fst.users, kv.2.email = e) →
        fireCreateUser hash fst t e p name fresh = (fst, false))
    ∧ ((∀ kv ∈ fst.users, kv.2.email ≠ e) → (∀ kv ∈ fst.users, kv.1 ≠ fresh) →
        (∀ kv ∈ fst.prefs, kv.1 ≠ fresh) →
        (fireCreateUser hash fst t e p name fresh).2 = true
        ∧ (fireCreateUser hash fst t e p name fresh).1.users = fst.users ++
            [(fresh, { email := e, password_hash := hash p, full_name := name,
                       created_at := t })]
        ∧ (fireCreateUser hash fst t e p name fresh).1.prefs = fst.prefs ++
            [(fresh, { user_id := some fresh, share_data_with_ai := false,
                       view_chat_history := true })]
        ∧ (fireCreateUser hash fst t e p name fresh).1.decisions = fst.decisions
        ∧ (fireCreateUser hash fst t e p name fresh).1.chat = fst.chat) := by
  refine ⟨jsonCreateUser_dup hash st t e p name, ?_,
    fireCreateUser_dup hash fst t e p name fresh, ?_⟩
  · intro h
    rw [jsonCreateUser_fresh hash st t e p name h]
    exact ⟨rfl, rfl, rfl, rfl, rfl⟩
  · intro h hu hp
    rw [fireCreateUser_fresh hash fst t e p name fresh h hu hp]
    exact ⟨rfl, rfl, rfl, rfl, rfl⟩

/-- Witness for C6: creating `a@x.com` in the empty store succeeds on both
backends, appending the expected user record. -/
theorem create_user_witness :
    (jsonCreateUser idHash emptyJson 1 "a@x.com" "pw1" "A").1.users =
      [{ id := 1, email := "a@x.com", password_hash := idHash "pw1",
         full_name := "A", created_at := 1 }]
    ∧ (fireCreateUser idHash emptyFire 1 "a@x.com" "pw1" "A" "u1").2 = true :=
  ⟨((create_user_duplicate_and_fresh idHash emptyJson emptyFire 1
      "a@x.com" "pw1" "A" "u1").2.1 (by decide)).2.1,
   ((create_user_duplicate_and_fresh idHash emptyJson emptyFire 1
      "a@x.com" "pw1" "A" "u1").2.2.2 (by decide) (by decide) (by decide)).1⟩

/-- C7: starting from a store with no user under email `e`, creating
`e`/`p` succeeds; authenticating with `e`/`p` yields the new sequential
user id; authenticating with any password whose hash differs from `p`'s
yields `none`; and a second creation under `e` fails. -/
theorem create_then_authenticate_scenario
    (hash : String → String) (st : JsonDB) (t t' : Timestamp)
    (e p w name p' name' : String)
    (h0 : ∀ u ∈ st.users, u.email ≠ e) (hw : hash w ≠ hash p) :
    (jsonCreateUser hash st t e p name).2 = true
    ∧ jsonAuthenticateUser hash (jsonCreateUser hash st t e p name).1 e p
        = some (st.users.length + 1)
    ∧ jsonAuthenticateUser hash (jsonCreateUser hash st t e p name).1 e w = none
    ∧ (jsonCreateUser hash (jsonCreateUser hash st t e p name).1 t' e p' name').2
        = false := by
  rw [jsonCreateUser_fresh hash st t e p name h0]
  have hnone : ∀ q : String,
      (st.users.find? fun u =>
        decide (u.email = e) && decide (u.password_hash = hash q)) = none := by
    intro q
    refine List.find?_eq_none.mpr ?_
    intro u hu
    simp only [Bool.and_eq_true, decide_eq_true_eq, not_and]
    intro he
    exact absurd he (h0 u hu)
  refine ⟨rfl, ?_, ?_, ?_⟩
  · unfold jsonAuthenticateUser
    simp only [List.find?_append, hnone, Option.none_or]
    simp [List.find?]
  · unfold jsonAuthenticateUser
    simp only [List.find?_append, hnone, Option.none_or]
    have hne : hash p ≠ hash w := fun hh => hw hh.symm
    simp [List.find?, hne]
  · unfold jsonCreateUser
    simp [List.any_append]

/-- Witness for C7 on the empty store with a transparent hash. -/
theorem create_then_authenticate_witness :
    jsonAuthenticateUser idHash
        (jsonCreateUser idHash emptyJson 1 "a@x.com" "pw1" "A").1
        "a@x.com" "pw1" = some 1
    ∧ jsonAuthenticateUser idHash
        (jsonCreateUser idHash emptyJson 1 "a@x.com" "pw1" "A").1
        "a@x.com" "wrong" = none :=
  ⟨(create_then_authenticate_scenario idHash emptyJson 1 2 "a@x.com" "pw1"
      "wrong" "A" "pw2" "B" (by decide) (by decide)).2.1,
   (create_then_authenticate_scenario idHash emptyJson 1 2 "a@x.com" "pw1"
      "wrong" "A" "pw2" "B" (by decide) (by decide)).2.2.1⟩

/-- C2: starting from stores holding no decision keyed by this id (and
owner, for the local store), saving twice with identical field values
leaves exactly one stored record carrying those values, and a further save
with changed values overwrites that single record — the local store at its
original list position (here the head, with the remainder of the list
untouched), the remote store under the same document id — rather than
duplicating it. -/
theorem save_decision_upsert_no_duplicate
    (st : JsonDB) (fst : FireDB) (uid : Nat) (fuid did fresh : String)
    (dd dd' : DecisionData) (t1 t2 t3 : Timestamp)
    (hdd : dd.id = some did) (hdd' : dd'.id = some did) (hne : did ≠ "")
    (h0 : st.decisions.countP (decKey did uid) = 0)
    (hf0 : ∀ kv ∈ fst.decisions, kv.1 ≠ did) :
    ((jsonSaveDecision st uid dd t1 fresh).1.decisions
        = mkPayload did uid dd t1 :: st.decisions)
    ∧ ((jsonSaveDecision (jsonSaveDecision st uid dd t1 fresh).1
          uid dd t2 fresh).1.decisions
        = mkPayload did uid dd t2 :: st.decisions)
    ∧ ((jsonSaveDecision (jsonSaveDecision st uid dd t1 fresh).1
          uid dd t2 fresh).1.decisions.countP (decKey did uid) = 1)
    ∧ ((jsonSaveDecision (jsonSaveDecision st uid dd t1 fresh).1
          uid dd' t3 fresh).1.decisions
        = mkPayload did uid dd' t3 :: st.decisions)
    ∧ ((jsonSaveDecision (jsonSaveDecision st uid dd t1 fresh).1
          uid dd' t3 fresh).1.decisions.countP (decKey did uid) = 1)
    ∧ ((fireSaveDecision fst fuid dd t1 fresh).1.decisions
        = fst.decisions ++ [(did, fireMkPayload fuid dd t1)])
    ∧ ((fireSaveDecision (fireSaveDecision fst fuid dd t1 fresh).1
          fuid dd t2 fresh).1.decisions
        = fst.decisions ++ [(did, fireMkPayload fuid dd t2)])
    ∧ ((fireSaveDecision (fireSaveDecision fst fuid dd t1 fresh).1
          fuid dd t2 fresh).1.decisions.countP (fun kv => decide (kv.1 = did)) = 1)
    ∧ ((fireSaveDecision (fireSaveDecision fst fuid dd t1 fresh).1
          fuid dd' t3 fresh).1.decisions
        = fst.decisions ++ [(did, fireMkPayload fuid dd' t3)])
    ∧ ((fireSaveDecision (fireSaveDecision fst fuid dd t1 fresh).1
          fuid dd' t3 fresh).1.decisions.countP
          (fun kv => decide (kv.1 = did)) = 1) := by
  have hid : chosenId dd fresh = did := by simp [chosenId, hdd, hne]
  have hid' : chosenId dd' fresh = did := by simp [chosenId, hdd', hne]
  have hkey : ∀ (dd₀ : DecisionData) (t₀ : Timestamp),
      decKey did uid (mkPayload did uid dd₀ t₀) = true := by
    intro dd₀ t₀
    simp [decKey, mkPayload]
  have hany0 : st.decisions.any (decKey did uid) = false :=
    List.any_eq_false.mpr (List.countP_eq_zero.mp h0)
  have s1 : (jsonSaveDecision st uid dd t1 fresh).1
      = { st with decisions := mkPayload did uid dd t1 :: st.decisions } := by
    simp [jsonSaveDecision, hid, hany0]
  have s2 : (jsonSaveDecision { st with
        decisions := mkPayload did uid dd t1 :: st.decisions } uid dd t2 fresh).1
      = { st with decisions := mkPayload did uid dd t2 :: st.decisions } := by
    simp [jsonSaveDecision, hid, List.any_cons, hkey,
      replaceFirst_cons_pos (hkey dd t1)]
  have s3 : (jsonSaveDecision { st with
        decisions := mkPayload did uid dd t1 :: st.decisions } uid dd' t3 fresh).1
      = { st with decisions := mkPayload did uid dd' t3 :: st.decisions } := by
    simp [jsonSaveDecision, hid', List.any_cons, hkey,
      replaceFirst_cons_pos (hkey dd t1)]
  have hfany0 : fst.decisions.countP (fun kv => decide (kv.1 = did)) = 0 :=
    List.countP_eq_zero.mpr (by intro kv hkv; simpa using hf0 kv hkv)
  have f1 : (fireSaveDecision fst fuid dd t1 fresh).1
      = { fst with decisions := fst.decisions ++ [(did, fireMkPayload fuid dd t1)] } := by
    simp [fireSaveDecision, hid, setDoc_of_forall_ne _ _ _ hf0]
  have f2 : (fireSaveDecision { fst with
        decisions := fst.decisions ++ [(did, fireMkPayload fuid dd t1)] }
          fuid dd t2 fresh).1
      = { fst with decisions := fst.decisions ++ [(did, fireMkPayload fuid dd t2)] } := by
    simp [fireSaveDecision, hid, setDoc_append_singleton _ _ _ _ hf0]
  have f3 : (fireSaveDecision { fst with
        decisions := fst.decisions ++ [(did, fireMkPayload fuid dd t1)] }
          fuid dd' t3 fresh).1
      = { fst with decisions := fst.decisions ++ [(did, fireMkPayload fuid dd' t3)] } := by
    simp [fireSaveDecision, hid', setDoc_append_singleton _ _ _ _ hf0]
  refine ⟨by rw [s1], by rw [s1, s2], ?_, by rw [s1, s3], ?_,
    by rw [f1], by rw [f1, f2], ?_, by rw [f1, f3], ?_⟩
  · rw [s1, s2]
    simpa [List.countP_cons_of_pos _ _ (hkey dd t2)] using h0
  · rw [s1, s3]
    simpa [List.countP_cons_of_pos _ _ (hkey dd' t3)] using h0
  · rw [f1, f2]
    simp [List.countP_append, hfany0]
  · rw [f1, f3]
    simp [List.countP_append, hfany0]

/-- Witness for C2: in the empty stores, a double save of `"d1"` followed
by a save with a changed title leaves a single overwritten record. -/
theorem save_decision_upsert_witness :
    (jsonSaveDecision (jsonSaveDecision emptyJson 1 ddSample 1 "f").1
        1 ddSample' 3 "f").1.decisions = [mkPayload "d1" 1 ddSample' 3]
    ∧ (fireSaveDecision (fireSaveDecision emptyFire "u1" ddSample 1 "f").1
        "u1" ddSample' 3 "f").1.decisions = [("d1", fireMkPayload "u1" ddSample' 3)] :=
  ⟨(save_decision_upsert_no_duplicate emptyJson emptyFire 1 "u1" "d1" "f"
      ddSample ddSample' 1 2 3 rfl rfl (by decide) (by decide) (by decide)).2.2.2.1,
   (save_decision_upsert_no_duplicate emptyJson emptyFire 1 "u1" "d1" "f"
      ddSample ddSample' 1 2 3 rfl rfl (by decide) (by decide) (by decide)).2.2.2.2.2.2.2.2.1⟩

/-- C4 counterexample (closed): with exactly one stored decision of user
1/"u1", calling `get_user_decisions` with the supplied limit `0` returns
one record on both backends — not at most zero records as the claim
requires — because `decisions[:limit] if limit else decisions` (and
`if limit:`) treats a zero limit as "no limit". -/
theorem get_user_decisions_limit_zero_counterexample :
    (jsonGetUserDecisions oneDecisionJson 1 (some 0)).length = 1
    ∧ (fireGetUserDecisions oneDecisionFire "u1" (some 0)).length = 1 := by
  constructor
  · simp [jsonGetUserDecisions, oneDecisionJson, emptyJson, mkPayload, ddSample,
      List.filter]
  · simp [fireGetUserDecisions, oneDecisionFire, emptyFire, fireMkPayload,
      ddSample, List.filter]

/-- C4 (amended): on both backends `get_user_decisions` returns exactly
the requesting user's decisions in non-increasing creation-time order, and
a supplied *positive* limit caps the result at the `limit` most recent
ones (a prefix of the descending order); a supplied zero limit is falsy
and returns everything (see the counterexample). -/
theorem get_user_decisions_sorted_owned_limited
    (st : JsonDB) (fst : FireDB) (uid : Nat) (fuid : String) :
    ((jsonGetUserDecisions st uid none).Perm
        (st.decisions.filter fun d => decide (d.user_id = uid)))
    ∧ (∀ d ∈ jsonGetUserDecisions st uid none, d.user_id = uid)
    ∧ List.Pairwise (fun a b : DecisionRec => b.created_at ≤ a.created_at)
        (jsonGetUserDecisions st uid none)
    ∧ (∀ k : Int, 0 < k → jsonGetUserDecisions st uid (some k)
        = (jsonGetUserDecisions st uid none).take k.toNat)
    ∧ (∀ k : Int, 0 < k →
        (jsonGetUserDecisions st uid (some k)).length ≤ k.toNat)
    ∧ ((fireGetUserDecisions fst fuid none).Perm
        (fst.decisions.filter fun kv => decide (kv.2.user_id = fuid)))
    ∧ (∀ kv ∈ fireGetUserDecisions fst fuid none, kv.2.user_id = fuid)
    ∧ List.Pairwise (fun a b : String × FireDecision =>
        b.2.created_at ≤ a.2.created_at) (fireGetUserDecisions fst fuid none)
    ∧ (∀ k : Nat, 0 < k → fireGetUserDecisions fst fuid (some k)
        = (fireGetUserDecisions fst fuid none).take k)
    ∧ (∀ k : Nat, 0 < k →
        (fireGetUserDecisions fst fuid (some k)).length ≤ k) := by
  have hperm : (jsonGetUserDecisions st uid none).Perm
      (st.decisions.filter fun d => decide (d.user_id = uid)) :=
    List.mergeSort_perm _ byCreatedDesc
  have htrans : ∀ a b c : DecisionRec, byCreatedDesc a b = true →
      byCreatedDesc b c = true → byCreatedDesc a c = true := by
    intro a b c hab hbc
    rw [byCreatedDesc_iff] at hab hbc ⊢
    exact le_trans hbc hab
  have htotal : ∀ a b : DecisionRec,
      (byCreatedDesc a b || byCreatedDesc b a) = true := by
    intro a b
    rcases Nat.le_total b.created_at a.created_at with h | h
    · simp [(byCreatedDesc_iff a b).mpr h]
    · simp [(byCreatedDesc_iff b a).mpr h]
  have hlim : ∀ k : Int, 0 < k → jsonGetUserDecisions st uid (some k)
      = (jsonGetUserDecisions st uid none).take k.toNat := by
    intro k hk
    have hk0 : ¬k = 0 := by omega
    simp [jsonGetUserDecisions, hk0, pySliceTo, hk.le]
  have hfperm : (fireGetUserDecisions fst fuid none).Perm
      (fst.decisions.filter fun kv => decide (kv.2.user_id = fuid)) :=
    List.mergeSort_perm _ fireByCreatedDesc
  have hftrans : ∀ a b c : String × FireDecision, fireByCreatedDesc a b = true →
      fireByCreatedDesc b c = true → fireByCreatedDesc a c = true := by
    intro a b c hab hbc
    rw [fireByCreatedDesc_iff] at hab hbc ⊢
    exact le_trans hbc hab
  have hftotal : ∀ a b : String × FireDecision,
      (fireByCreatedDesc a b || fireByCreatedDesc b a) = true := by
    intro a b
    rcases Nat.le_total b.2.created_at a.2.created_at with h | h
    · simp [(fireByCreatedDesc_iff a b).mpr h]
    · simp [(fireByCreatedDesc_iff b a).mpr h]
  have hflim : ∀ k : Nat, 0 < k → fireGetUserDecisions fst fuid (some k)
      = (fireGetUserDecisions fst fuid none).take k := by
    intro k hk
    have hk0 : ¬k = 0 := by omega
    simp [fireGetUserDecisions, hk0]
  refine ⟨hperm, ?_, ?_, hlim, ?_, hfperm, ?_, ?_, hflim, ?_⟩
  · intro d hd
    have := List.mem_filter.mp (hperm.mem_iff.mp hd)
    simpa using this.2
  · exact (List.sorted_mergeSort htrans htotal _).imp
      fun h => (byCreatedDesc_iff _ _).mp h
  · intro k hk
    rw [hlim k hk, List.length_take]
    exact Nat.min_le_left _ _
  · intro kv hkv
    have := List.mem_filter.mp (hfperm.mem_iff.mp hkv)
    simpa using this.2
  · exact (List.sorted_mergeSort hftrans hftotal _).imp
      fun h => (fireByCreatedDesc_iff _ _).mp h
  · intro k hk
    rw [hflim k hk, List.length_take]
    exact Nat.min_le_left _ _

/-- Witness for C4 at a concrete store and the positive limit 1. -/
theorem get_user_decisions_limited_witness :
    jsonGetUserDecisions oneDecisionJson 1 (some 1)
      = (jsonGetUserDecisions oneDecisionJson 1 none).take ((1 : Int).toNat) :=
  (get_user_decisions_sorted_owned_limited oneDecisionJson oneDecisionFire
      1 "u1").2.2.2.1 1 (by decide)

/-- C5 counterexample (closed): the store holds one message of user 1
linked to decision `"d1"`; calling `get_chat_history` with the supplied
decision id `""` returns that message instead of filtering it out, because
`if decision_id:` skips the filter for a falsy (empty) argument — so
"filtered exactly when the argument is supplied" fails as stated. -/
theorem get_chat_history_empty_filter_counterexample :
    (jsonGetChatHistory oneChatJson 1 (some "") none false).length = 1 := by
  simp [jsonGetChatHistory, oneChatJson, emptyJson, truthyStr, List.filter]

/-- C5 (amended): on both backends `get_chat_history` returns only the
requesting user's messages, filtered by decision id and by chat type
exactly when a *non-empty* value for them is supplied (a supplied empty
string is falsy and skips the filter, see the counterexample), in
non-decreasing timestamp order; a stored message — one passing the
supplied filters — appears in the result iff hidden messages were
requested or it is visible. -/
theorem get_chat_history_filters_sorted_visibility
    (st : JsonDB) (fst : FireDB) (uid : Nat) (fuid : String)
    (did ct : Option String) (ih : Bool) :
    (∀ c ∈ jsonGetChatHistory st uid did ct ih, c.user_id = uid)
    ∧ (∀ s, did = some s → s ≠ "" →
        ∀ c ∈ jsonGetChatHistory st uid did ct ih, c.decision_id = some s)
    ∧ (∀ s, ct = some s → s ≠ "" →
        ∀ c ∈ jsonGetChatHistory st uid did ct ih, c.chat_type = s)
    ∧ List.Pairwise (fun a b : ChatRec => a.timestamp ≤ b.timestamp)
        (jsonGetChatHistory st uid did ct ih)
    ∧ (∀ c ∈ st.chat, c ∈ jsonGetChatHistory st uid did ct ih ↔
        (c.user_id = uid
          ∧ (truthyStr did = true → c.decision_id = did)
          ∧ (∀ s, ct = some s → s ≠ "" → c.chat_type = s)
          ∧ (ih = true ∨ c.is_visible_to_user = true)))
    ∧ (∀ kv ∈ fireGetChatHistory fst fuid did ct ih, kv.2.user_id = fuid)
    ∧ (∀ s, did = some s → s ≠ "" →
        ∀ kv ∈ fireGetChatHistory fst fuid did ct ih, kv.2.decision_id = some s)
    ∧ (∀ s, ct = some s → s ≠ "" →
        ∀ kv ∈ fireGetChatHistory fst fuid did ct ih, kv.2.chat_type = s)
    ∧ List.Pairwise (fun a b : String × FireChat => a.2.timestamp ≤ b.2.timestamp)
        (fireGetChatHistory fst fuid did ct ih)
    ∧ (∀ kv ∈ fst.chat, kv ∈ fireGetChatHistory fst fuid did ct ih ↔
        (kv.2.user_id = fuid
          ∧ (truthyStr did = true → kv.2.decision_id = did)
          ∧ (∀ s, ct = some s → s ≠ "" → kv.2.chat_type = s)
          ∧ (ih = true ∨ kv.2.is_visible_to_user = true))) := by
  have htrans : ∀ a b c : ChatRec, byTimestampAsc a b = true →
      byTimestampAsc b c = true → byTimestampAsc a c = true := by
    intro a b c hab hbc
    rw [byTimestampAsc_iff] at hab hbc ⊢
    exact le_trans hab hbc
  have htotal : ∀ a b : ChatRec,
      (byTimestampAsc a b || byTimestampAsc b a) = true := by
    intro a b
    rcases Nat.le_total a.timestamp b.timestamp with h | h
    · simp [(byTimestampAsc_iff a b).mpr h]
    · simp [(byTimestampAsc_iff b a).mpr h]
  have hftrans : ∀ a b c : String × FireChat, fireByTimestampAsc a b = true →
      fireByTimestampAsc b c = true → fireByTimestampAsc a c = true := by
    intro a b c hab hbc
    rw [fireByTimestampAsc_iff] at hab hbc ⊢
    exact le_trans hab hbc
  have hftotal : ∀ a b : String × FireChat,
      (fireByTimestampAsc a b || fireByTimestampAsc b a) = true := by
    intro a b
    rcases Nat.le_total a.2.timestamp b.2.timestamp with h | h
    · simp [(fireByTimestampAsc_iff a b).mpr h]
    · simp [(fireByTimestampAsc_iff b a).mpr h]
  refine ⟨?_, ?_, ?_, ?_, ?_, ?_, ?_, ?_, ?_, ?_⟩
  · intro c hc
    exact (mem_jsonGetChatHistory.mp hc).2.1
  · intro s hdid hs c hc
    have h := (mem_jsonGetChatHistory.mp hc).2.2.1
    rw [hdid] at h
    exact h (by simp [truthyStr, hs])
  · intro s hct hs c hc
    exact (mem_jsonGetChatHistory.mp hc).2.2.2.1 s hct hs
  · exact (List.sorted_mergeSort htrans htotal _).imp
      fun h => (byTimestampAsc_iff _ _).mp h
  · intro c hc
    rw [mem_jsonGetChatHistory]
    tauto
  · intro kv hkv
    exact (mem_fireGetChatHistory.mp hkv).2.1
  · intro s hdid hs kv hkv
    have h := (mem_fireGetChatHistory.mp hkv).2.2.1
    rw [hdid] at h
    exact h (by simp [truthyStr, hs])
  · intro s hct hs kv hkv
    exact (mem_fireGetChatHistory.mp hkv).2.2.2.1 s hct hs
  · exact (List.sorted_mergeSort hftrans hftotal _).imp
      fun h => (fireByTimestampAsc_iff _ _).mp h
  · intro kv hkv
    rw [mem_fireGetChatHistory]
    tauto

/-- Witness for C5: the hidden message is absent for
`include_hidden = false` and present for `include_hidden = true`. -/
theorem get_chat_history_visibility_witness :
    ¬hiddenMsg ∈ jsonGetChatHistory hiddenChatJson 1 none none false
    ∧ hiddenMsg ∈ jsonGetChatHistory hiddenChatJson 1 none none true := by
  have h0 := (get_chat_history_filters_sorted_visibility hiddenChatJson emptyFire
    1 "u1" none none false).2.2.2.2.1 hiddenMsg (by decide)
  have h1 := (get_chat_history_filters_sorted_visibility hiddenChatJson emptyFire
    1 "u1" none none true).2.2.2.2.1 hiddenMsg (by decide)
  constructor
  · intro hmem
    have := h0.mp hmem
    simp [hiddenMsg, truthyStr] at this
  · exact h1.mpr (by simp [hiddenMsg, truthyStr])

/-- C10: every save — insert or upsert of an already-stored id — stamps
the stored record's `created_at` with the time of that call (both
backends), so the original creation timestamp is not preserved; and when
the re-save is strictly newer than every other decision of the user (with
the id stored at most once, as the API guarantees), the re-saved decision
becomes the head of `get_user_decisions`' creation-time-descending order. -/
theorem save_decision_refreshes_created_at
    (st : JsonDB) (fst : FireDB) (uid : Nat) (fuid did fresh : String)
    (dd : DecisionData) (t : Timestamp)
    (hdd : dd.id = some did) (hne : did ≠ "")
    (hdup : st.decisions.countP (decKey did uid) ≤ 1)
    (hmax : ∀ d ∈ st.decisions, d.user_id = uid → d.id ≠ did → d.created_at < t)
    (hfdup : fst.decisions.countP (fun kv => decide (kv.1 = did)) ≤ 1)
    (hfmax : ∀ kv ∈ fst.decisions, kv.2.user_id = fuid → kv.1 ≠ did →
      kv.2.created_at < t) :
    jsonGetDecision (jsonSaveDecision st uid dd t fresh).1 uid did
      = some (mkPayload did uid dd t)
    ∧ getDoc did (fireSaveDecision fst fuid dd t fresh).1.decisions
      = some (fireMkPayload fuid dd t)
    ∧ (jsonGetUserDecisions (jsonSaveDecision st uid dd t fresh).1 uid none).head?
      = some (mkPayload did uid dd t)
    ∧ (fireGetUserDecisions (fireSaveDecision fst fuid dd t fresh).1 fuid none).head?
      = some (did, fireMkPayload fuid dd t) := by
  have hid : chosenId dd fresh = did := by simp [chosenId, hdd, hne]
  have hkey : decKey did uid (mkPayload did uid dd t) = true := by
    simp [decKey, mkPayload]
  -- the JSON state after the save
  have hjson : ∀ P : List DecisionRec → Prop,
      (st.decisions.any (decKey did uid) = false →
        P (mkPayload did uid dd t :: st.decisions)) →
      (st.decisions.any (decKey did uid) = true →
        P (replaceFirst (decKey did uid) (mkPayload did uid dd t) st.decisions)) →
      P (jsonSaveDecision st uid dd t fresh).1.decisions := by
    intro P hfalse htrue
    cases hany : st.decisions.any (decKey did uid) with
    | false => simpa [jsonSaveDecision, hid, hany] using hfalse hany
    | true => simpa [jsonSaveDecision, hid, hany] using htrue hany
  -- conjunct 1: the stored record under the saved id carries the call time
  have c1 : jsonGetDecision (jsonSaveDecision st uid dd t fresh).1 uid did
      = some (mkPayload did uid dd t) := by
    unfold jsonGetDecision
    refine hjson (fun l => l.find? (decKey did uid) = some (mkPayload did uid dd t))
      ?_ ?_
    · intro _
      exact List.find?_cons_of_pos _ hkey
    · intro hany
      exact find?_replaceFirst hkey st.decisions hany
  -- conjunct 2
  have c2 : getDoc did (fireSaveDecision fst fuid dd t fresh).1.decisions
      = some (fireMkPayload fuid dd t) := by
    simp only [fireSaveDecision, hid]
    exact getDoc_setDoc_self did _ fst.decisions
  -- conjunct 3: the re-saved record heads the descending order
  have c3 : (jsonGetUserDecisions (jsonSaveDecision st uid dd t fresh).1
      uid none).head? = some (mkPayload did uid dd t) := by
    unfold jsonGetUserDecisions
    refine hjson (fun l => ((l.filter fun d => decide (d.user_id = uid)).mergeSort
      byCreatedDesc).head? = some (mkPayload did uid dd t)) ?_ ?_
    · intro hany
      refine head?_mergeSort_max (fun d => d.created_at)
        (fun a b => byCreatedDesc_iff a b) _ _ ?_ ?_
      · refine List.mem_filter.mpr ⟨List.mem_cons_self _ _, by simp [mkPayload]⟩
      · intro y hy hyne
        rcases List.mem_filter.mp hy with ⟨hmem, hyuid⟩
        rcases List.mem_cons.mp hmem with rfl | hysd
        · exact absurd rfl hyne
        · have hynotkey := List.any_eq_false.mp hany y hysd
          have hyid : y.id ≠ did := by
            intro hyid
            exact hynotkey (by simp [decKey, hyid, decide_eq_true_eq.mp hyuid])
          exact hmax y hysd (by simpa using hyuid) hyid
    · intro hany
      obtain ⟨l₁, a, l₂, hsd, ha, hl₁, hrf⟩ :=
        replaceFirst_decomp (mkPayload did uid dd t) st.decisions hany
      rw [hrf]
      refine head?_mergeSort_max (fun d => d.created_at)
        (fun a b => byCreatedDesc_iff a b) _ _ ?_ ?_
      · refine List.mem_filter.mpr ⟨?_, by simp [mkPayload]⟩
        exact List.mem_append.mpr (Or.inr (List.mem_cons_self _ _))
      · intro y hy hyne
        rcases List.mem_filter.mp hy with ⟨hmem, hyuid⟩
        have hyuid' : y.user_id = uid := by simpa using hyuid
        rcases List.mem_append.mp hmem with hy₁ | hy₂
        · have hyid : y.id ≠ did := by
            intro hyid
            have hk : decKey did uid y = true := by simp [decKey, hyid, hyuid']
            have hk' : decKey did uid y = false := hl₁ y hy₁
            simp [hk] at hk'
          exact hmax y (hsd ▸ List.mem_append.mpr (Or.inl hy₁)) hyuid' hyid
        · rcases List.mem_cons.mp hy₂ with rfl | hy₂
          · exact absurd rfl hyne
          · have hyid : y.id ≠ did := by
              intro hyid
              have hpos : 0 < l₂.countP (decKey did uid) :=
                List.countP_pos_iff.mpr ⟨y, hy₂, by simp [decKey, hyid, hyuid']⟩
              have : st.decisions.countP (decKey did uid)
                  = l₁.countP (decKey did uid) + (1 + l₂.countP (decKey did uid)) := by
                rw [hsd, List.countP_append, List.countP_cons_of_pos _ _ ha]
                omega
              omega
            refine hmax y ?_ hyuid' hyid
            rw [hsd]
            exact List.mem_append.mpr (Or.inr (List.mem_cons_of_mem _ hy₂))
  -- conjunct 4
  have c4 : (fireGetUserDecisions (fireSaveDecision fst fuid dd t fresh).1
      fuid none).head? = some (did, fireMkPayload fuid dd t) := by
    unfold fireGetUserDecisions
    simp only [fireSaveDecision, hid]
    cases hany : fst.decisions.any (fun kv => decide (kv.1 = did)) with
    | false =>
      have hnone : ∀ kv ∈ fst.decisions, kv.1 ≠ did := by
        intro kv hkv
        have := List.any_eq_false.mp hany kv hkv
        simpa using this
      rw [setDoc_of_forall_ne _ _ _ hnone]
      refine head?_mergeSort_max (fun kv => kv.2.created_at)
        (fun a b => fireByCreatedDesc_iff a b) _ _ ?_ ?_
      · refine List.mem_filter.mpr ⟨?_, by simp [fireMkPayload]⟩
        exact List.mem_append.mpr (Or.inr (List.mem_cons_self _ _))
      · intro y hy hyne
        rcases List.mem_filter.mp hy with ⟨hmem, hyuid⟩
        rcases List.mem_append.mp hmem with hy₁ | hy₂
        · exact hfmax y hy₁ (by simpa using hyuid) (hnone y hy₁)
        · simp at hy₂
          exact absurd hy₂ hyne
    | true =>
      obtain ⟨l₁, w, l₂, hsd, hl₁, hset⟩ :=
        setDoc_decomp did (fireMkPayload fuid dd t) fst.decisions hany
      rw [hset]
      refine head?_mergeSort_max (fun kv => kv.2.created_at)
        (fun a b => fireByCreatedDesc_iff a b) _ _ ?_ ?_
      · refine List.mem_filter.mpr ⟨?_, by simp [fireMkPayload]⟩
        exact List.mem_append.mpr (Or.inr (List.mem_cons_self _ _))
      · intro y hy hyne
        rcases List.mem_filter.mp hy with ⟨hmem, hyuid⟩
        have hyuid' : y.2.user_id = fuid := by simpa using hyuid
        rcases List.mem_append.mp hmem with hy₁ | hy₂
        · exact hfmax y (hsd ▸ List.mem_append.mpr (Or.inl hy₁)) hyuid' (hl₁ y hy₁)
        · rcases List.mem_cons.mp hy₂ with rfl | hy₂
          · exact absurd rfl hyne
          · have hyid : y.1 ≠ did := by
              intro hyid
              have hpos : 0 < l₂.countP (fun kv => decide (kv.1 = did)) :=
                List.countP_pos_iff.mpr ⟨y, hy₂, by simp [hyid]⟩
              have : fst.decisions.countP (fun kv => decide (kv.1 = did))
                  = l₁.countP (fun kv => decide (kv.1 = did))
                    + (1 + l₂.countP (fun kv => decide (kv.1 = did))) := by
                rw [hsd, List.countP_append, List.countP_cons_of_pos _ _ (by simp)]
                omega
              omega
            refine hfmax y ?_ hyuid' hyid
            rw [hsd]
            exact List.mem_append.mpr (Or.inr (List.mem_cons_of_mem _ hy₂))
  exact ⟨c1, c2, c3, c4⟩

/-- Witness for C10: re-saving the already-stored decision `"d1"` at a
newer instant moves it to the head of the ordering with the new stamp. -/
theorem save_decision_refreshes_witness :
    (jsonGetUserDecisions (jsonSaveDecision oneDecisionJson 1 ddSample 9 "f").1
        1 none).head? = some (mkPayload "d1" 1 ddSample 9)
    ∧ (fireGetUserDecisions (fireSaveDecision oneDecisionFire "u1" ddSample 9 "f").1
        "u1" none).head? = some ("d1", fireMkPayload "u1" ddSample 9) :=
  ⟨(save_decision_refreshes_created_at oneDecisionJson oneDecisionFire 1 "u1"
      "d1" "f" ddSample 9 rfl (by decide) (by decide) (by decide) (by decide)
      (by decide)).2.2.1,
   (save_decision_refreshes_created_at oneDecisionJson oneDecisionFire 1 "u1"
      "d1" "f" ddSample 9 rfl (by decide) (by decide) (by decide) (by decide)
      (by decide)).2.2.2⟩

end NeuroLinker
